import Mathlib

/-!
Verification of the schema-normalization and query-construction layer of the
purchase-data dashboard (`src/app.py`).

The development shallowly embeds the relevant pieces of the script:

* character/string utilities that mirror the Python string primitives used by
  the script (`str.strip`, `str.split`, `str.replace`, `str.endswith`,
  `str.lower`, decimal rendering of integers);
* the column normalizer `_standardize_columns` (lines 27-58);
* the CSV loader `load_csv` (lines 61-119), modelled as a pipeline on an
  association-list data frame, with `st.error` + `st.stop` modelled as an
  `Except.error` result;
* the SQL fragment builders `sql_list_num` (122-123), `sql_list_str`
  (126-140) and `enhance_pattern` (154-164), together with executable
  semantics for the generated SQL fragments (integer `IN` lists, string
  literals, `ILIKE` matching);
* the filter-clause construction of lines 306-342 (per-category clause
  builders) and the grouped-sum aggregation query of lines 609-617.

Theorems at the end settle the frozen claims about this layer.
-/

set_option maxRecDepth 10000

namespace App

/-! ### Python string primitives -/

/-- Whitespace characters recognized by Python `str.strip` / `str.split`
(space, tab, newline, carriage return, vertical tab, form feed). -/
def isPyWs (c : Char) : Bool :=
  c = ' ' || c = '\t' || c = '\n' || c = '\r' || c = '\x0b' || c = '\x0c'

/-- Python `str.strip()`: drop leading and trailing whitespace. -/
def pyStrip (l : List Char) : List Char :=
  ((l.dropWhile isPyWs).reverse.dropWhile isPyWs).reverse

/-- Lower-casing of one character, as in Python `str.lower` and in the
case-insensitive `ILIKE` comparison (ASCII range). -/
def lowerChar (c : Char) : Char := c.toLower

/-- The decimal digit character for a value below ten. -/
def digitChar (d : Nat) : Char := Char.ofNat (48 + d)

/-- Numeric value of a decimal digit character. -/
def digitVal (c : Char) : Nat := c.toNat - 48

/-- Test for an ASCII decimal digit. -/
def isDigitChar (c : Char) : Bool := 48 ≤ c.toNat && c.toNat ≤ 57

/-- Little-endian decimal digits of a natural number. -/
def natDigitsRev (n : Nat) : List Char :=
  if _h : n < 10 then [digitChar n]
  else digitChar (n % 10) :: natDigitsRev (n / 10)
decreasing_by omega

/-- Decimal rendering of a natural number, as Python `str`. -/
def natStr (n : Nat) : List Char := (natDigitsRev n).reverse

/-- Decimal rendering of an integer, as Python `str`. -/
def intStr (i : Int) : List Char :=
  if i < 0 then '-' :: natStr i.natAbs else natStr i.natAbs

/-- Parse a non-empty all-digit character list as a natural number. -/
def parseNatChars? (l : List Char) : Option Nat :=
  if l ≠ [] ∧ l.all isDigitChar then
    some (l.foldl (fun a c => 10 * a + digitVal c) 0)
  else none

/-- Parse an optionally `-`-signed decimal integer. -/
def parseIntChars? (l : List Char) : Option Int :=
  match l with
  | [] => none
  | c :: rest =>
    if c = '-' then (parseNatChars? rest).map (fun n => -(n : Int))
    else (parseNatChars? (c :: rest)).map (fun n => (n : Int))

/-- Split a character list at every occurrence of a separator character;
always returns at least one (possibly empty) piece. -/
def splitOnChar (sep : Char) : List Char → List (List Char)
  | [] => [[]]
  | c :: rest =>
    if c = sep then [] :: splitOnChar sep rest
    else
      match splitOnChar sep rest with
      | [] => [[c]]
      | s :: ss => (c :: s) :: ss

/-- Join pieces with a single-character separator, as Python `sep.join`. -/
def joinSep (sep : Char) : List (List Char) → List Char
  | [] => []
  | [x] => x
  | x :: xs => x ++ sep :: joinSep sep xs

/-- Boolean test that the first list is an initial segment of the second. -/
def startsWith : List Char → List Char → Bool
  | [], _ => true
  | _ :: _, [] => false
  | a :: p, b :: l => a == b && startsWith p l

/-- Boolean test that `t` occurs as a contiguous substring of the second
argument. -/
def containsSub (t : List Char) : List Char → Bool
  | [] => t.isEmpty
  | c :: v => startsWith t (c :: v) || containsSub t v

/-- Python `s.endswith(suf)`. -/
def endsWithD (l suf : List Char) : Bool :=
  decide (suf.length ≤ l.length) && decide (l.drop (l.length - suf.length) = suf)

/-- Python `pattern.split()`: split on runs of whitespace, dropping empty
pieces (auxiliary accumulator form). -/
def pySplitWSAux : List Char → List Char → List (List Char)
  | cur, [] => if cur.isEmpty then [] else [cur.reverse]
  | cur, c :: rest =>
    if isPyWs c then
      if cur.isEmpty then pySplitWSAux [] rest
      else cur.reverse :: pySplitWSAux [] rest
    else pySplitWSAux (c :: cur) rest

/-- Python `pattern.split()` on whitespace. -/
def pySplitWS (l : List Char) : List (List Char) := pySplitWSAux [] l

/-! ### SQL fragment semantics -/

/-- Python `v.replace("'", "''")`: double every single-quote character
(lines 138 and 164 of `app.py`). -/
def escapeSq : List Char → List Char
  | [] => []
  | c :: rest => if c = '\'' then '\'' :: '\'' :: escapeSq rest else c :: escapeSq rest

/-- A quoted SQL string literal for an (already stripped) value, as built on
line 139 of `app.py`. -/
def strLiteral (v : List Char) : List Char := '\'' :: (escapeSq v ++ ['\''])

/-- SQL string-literal body parser: consume characters up to the closing
quote, decoding a doubled quote as one literal quote.  Returns the decoded
content and the input remaining after the closing quote. -/
def parseBody : List Char → Option (List Char × List Char)
  | [] => none
  | c :: rest =>
    if c = '\'' then
      match rest with
      | [] => some ([], [])
      | c2 :: rest2 =>
        if c2 = '\'' then (parseBody rest2).map (fun p => ('\'' :: p.1, p.2))
        else some ([], rest)
    else (parseBody rest).map (fun p => (c :: p.1, p.2))

/-- Parse a complete SQL string literal (opening quote, body, closing quote,
nothing after it) to the string value it denotes. -/
def sqlParseLiteral (l : List Char) : Option (List Char) :=
  match l with
  | [] => none
  | c :: rest =>
    if c = '\'' then
      match parseBody rest with
      | some (s, []) => some s
      | _ => none
    else none

/-- All suffixes of a character list, longest first. -/
def tails : List Char → List (List Char)
  | [] => [[]]
  | c :: v => (c :: v) :: tails v

/-- Case-insensitive SQL `LIKE` matching: `%` matches any character sequence
(the rest of the pattern must match some suffix of the value), `_` matches
one character, anything else matches itself up to case (the semantics of
DuckDB `ILIKE`). -/
def likeMatch : List Char → List Char → Bool
  | [], v => v.isEmpty
  | c :: p, v =>
    if c = '%' then (tails v).any (fun s => likeMatch p s)
    else
      match v with
      | [] => false
      | d :: v' =>
        if c = '_' then likeMatch p v'
        else (lowerChar c == lowerChar d) && likeMatch p v'

/-! ### Canonical column names -/

def colClose : List Char := "마감월".data
def colYear : List Char := "연도".data
def colYM : List Char := "연월".data
def colName : List Char := "공급업체명".data
def colCode : List Char := "공급업체코드".data
def colDisp : List Char := "업체표시".data
def colQty : List Char := "송장수량".data
def colAmt : List Char := "송장금액".data
def colPrice : List Char := "단가".data
def colPlant : List Char := "플랜트".data
def colGroup : List Char := "구매그룹".data
def colPart : List Char := "파트".data

/-! ### Column normalizer (`_standardize_columns`, lines 27-58) -/

/-- The synonym table of `_standardize_columns` (lines 32-44): each group
lists raw header variations and the canonical name they are renamed to. -/
def column_mappings : List (List (List Char) × List Char) :=
  [ (["업체명".data, "공급업체명".data, "밤더명".data], "공급업체명".data),
    (["공급업체".data, "공급사코드".data, "공급업체코드".data, "밤더코드".data], "공급업체코드".data),
    (["구매그룹명".data, "구매그룹".data], "구매그룹".data),
    (["송장금액".data, "인보이스금액".data, "발주금액".data], "송장금액".data),
    (["송장수량".data, "인보이스수량".data, "발주수량".data], "송장수량".data),
    (["자재".data, "자재코드".data, "자재번호".data], "자재".data),
    (["자재명".data, "자재설명".data], "자재명".data) ]

/-- Header normal form used for matching (line 47): remove every space and
parenthesis, then strip whitespace. -/
def normHeader (col : List Char) : List Char :=
  pyStrip (col.filter (fun c => !(c == ' ' || c == '(' || c == ')')))

/-- First mapping group one of whose variations (spaces removed) equals the
normal form (lines 50-53, with the `break` giving first-match semantics). -/
def findTarget (norm : List Char) : List (List (List Char) × List Char) → Option (List Char)
  | [] => none
  | (vars, target) :: rest =>
    if vars.any (fun v => norm == v.filter (fun c => !(c == ' '))) then some target
    else findTarget norm rest

/-- The renaming applied to a single (already stripped) header: the canonical
name of the first matching group, or the header itself. -/
def renameHeader (col : List Char) : List Char :=
  match findTarget (normHeader col) column_mappings with
  | some t => t
  | none => col

/-! ### Data frame model -/

/-- A cell of the loaded table: a number (pandas int64/float64, modelled as a
rational), a string, a date (year, month, day; pandas Timestamp), or a
missing value (NaN / NaT / None). -/
inductive Cell where
  | num : Rat → Cell
  | str : List Char → Cell
  | date : Int → Nat → Nat → Cell
  | null : Cell
deriving DecidableEq, Repr

/-- A row keyed by column name; duplicate keys can appear transiently before
the duplicate-column drop, and lookup always takes the first occurrence,
matching the kept-first semantics of line 57. -/
abbrev Row := List (List Char × Cell)

/-- A data frame: column names in order, and rows. -/
structure Frame where
  cols : List (List Char)
  rows : List Row
deriving DecidableEq, Repr

/-- Fractional decimal digits of `rem / den`, most significant first. -/
def fracDigits (den : Nat) : Nat → Nat → List Char
  | 0, _ => []
  | k + 1, rem => digitChar (rem * 10 / den) :: fracDigits den k (rem * 10 % den)

/-- Trim trailing zero characters. -/
def trimZeros (l : List Char) : List Char :=
  (l.reverse.dropWhile (fun c => c == '0')).reverse

/-- Python `str()` of a pandas float: an integral value `n` renders as
`"n.0"` — the spreadsheet-export artifact targeted by
`clean_supplier_code` — and a fractional value as a decimal expansion
(17 digits, trailing zeros trimmed; exact for the finite decimals that occur
in CSV data). -/
def pyNumStr (q : Rat) : List Char :=
  if q.den = 1 then intStr q.num ++ ['.', '0']
  else
    let sgn : List Char := if q.num < 0 then ['-'] else []
    let a := q.num.natAbs
    let frac := trimZeros (fracDigits q.den 17 (a % q.den))
    sgn ++ natStr (a / q.den) ++ '.' :: (if frac.isEmpty then ['0'] else frac)

/-- Zero-padded two-digit rendering for ISO dates. -/
def pad2 (n : Nat) : List Char := if n < 10 then '0' :: natStr n else natStr n

/-- Python `str()` of a cell, as seen by the row lambdas of `load_csv`:
strings are themselves, NaN/None renders as `"nan"`, numbers as pandas
floats, timestamps in ISO form. -/
def cellPyStr (c : Cell) : List Char :=
  match c with
  | .str s => s
  | .num q => pyNumStr q
  | .null => "nan".data
  | .date y m d => intStr y ++ '-' :: (pad2 m ++ '-' :: pad2 d)

/-! ### `load_csv` (lines 61-119) -/

/-- Standardized column list: headers stripped (line 28), renamed through the
synonym table (line 55), and duplicates dropped keeping the first occurrence
(lines 56-57). -/
def dedupAux (seen : List (List Char)) : List (List Char) → List (List Char)
  | [] => []
  | c :: rest =>
    if seen.contains c then dedupAux seen rest
    else c :: dedupAux (c :: seen) rest

def standardizeCols (cols : List (List Char)) : List (List Char) :=
  dedupAux [] ((cols.map pyStrip).map renameHeader)

/-- The same strip/rename/dedup transformation on the keys of one row. -/
def dedupRowAux (seen : List (List Char)) : Row → Row
  | [] => []
  | kv :: rest =>
    if seen.contains kv.1 then dedupRowAux seen rest
    else kv :: dedupRowAux (kv.1 :: seen) rest

def standardizeRow (r : Row) : Row :=
  dedupRowAux [] (r.map (fun kv => (renameHeader (pyStrip kv.1), kv.2)))

/-- `_standardize_columns` on a frame. -/
def standardize (f : Frame) : Frame :=
  ⟨standardizeCols f.cols, f.rows.map standardizeRow⟩

/-- Replace the value stored under key `n` in a row. -/
def mapRowVal (n : List Char) (g : Cell → Cell) : Row → Row
  | [] => []
  | (k, v) :: rest => (if k = n then (k, g v) else (k, v)) :: mapRowVal n g rest

/-- `df[n] = df[n].map(g)` on a frame (the column is assumed present). -/
def mapColCell (n : List Char) (g : Cell → Cell) (f : Frame) : Frame :=
  ⟨f.cols, f.rows.map (mapRowVal n g)⟩

/-- Pandas column assignment on one row: overwrite the key if present,
append it otherwise. -/
def setRowCell (n : List Char) (c0 : Cell) (r : Row) : Row :=
  if r.any (fun kv => kv.1 == n) then mapRowVal n (fun _ => c0) r
  else r ++ [(n, c0)]

/-- `df[n] = df.apply(g, axis=1)`: assign a derived column computed from
each row. -/
def setColWith (n : List Char) (g : Row → Cell) (f : Frame) : Frame :=
  ⟨if f.cols.contains n then f.cols else f.cols ++ [n],
   f.rows.map (fun r => setRowCell n (g r) r)⟩

/-- `pd.api.types.is_numeric_dtype` for a column of this model: every cell
under the key is numeric or missing. -/
def colIsNumericDtype (f : Frame) (n : List Char) : Bool :=
  f.rows.all (fun r =>
    match r.lookup n with
    | some (.num _) => true
    | some .null => true
    | none => true
    | _ => false)

/-- Proleptic-Gregorian civil date of a day count relative to 1970-01-01
(the standard days-to-civil algorithm). -/
def civilFromDays (z0 : Int) : Int × Nat × Nat :=
  let z := z0 + 719468
  let era := z.fdiv 146097
  let doe := (z - era * 146097).toNat
  let yoe := (doe - doe / 1460 + doe / 36524 - doe / 146096) / 365
  let y := (yoe : Int) + era * 400
  let doy := doe - (365 * yoe + yoe / 4 - yoe / 100)
  let mp := (5 * doy + 2) / 153
  let d := doy - (153 * mp + 2) / 5 + 1
  let m := if mp < 10 then mp + 3 else mp - 9
  (if mp < 10 then y else y + 1, m, d)

/-- `pd.to_datetime(v, unit="D", origin="1899-12-30")` (line 74): the value
counts days from the spreadsheet origin 1899-12-30, which is day -25569
relative to 1970-01-01. -/
def serialDateCell (q : Rat) : Cell :=
  match civilFromDays (q.floor - 25569) with
  | (y, m, d) => .date y m d

/-- Modelled from the spec: "otherwise parse as a calendar date string;
unparseable values become null" (line 76, `pd.to_datetime(...,
errors="coerce")`).  Only ISO `YYYY-MM-DD` spellings are modelled; no claim
exercises other spellings accepted by pandas. -/
def parseDateCell (s : List Char) : Cell :=
  match (splitOnChar '-' (pyStrip s)).map parseNatChars? with
  | [some y, some m, some d] =>
    if 1 ≤ m ∧ m ≤ 12 ∧ 1 ≤ d ∧ d ≤ 31 then .date (y : Int) m d else .null
  | _ => .null

/-- Lines 73-76: numeric closing-month columns are read as spreadsheet serial
dates, other columns are parsed as date strings; failures become NaT. -/
def dateStep (f : Frame) : Frame :=
  if colIsNumericDtype f colClose then
    mapColCell colClose
      (fun c => match c with
        | .num q => serialDateCell q
        | _ => .null) f
  else
    mapColCell colClose
      (fun c => match c with
        | .str s => parseDateCell s
        | _ => .null) f

/-- Line 78: `df["연도"] = df["마감월"].dt.year` (nullable integer). -/
def yearOf (r : Row) : Cell :=
  match r.lookup colClose with
  | some (.date y _ _) => .num (y : Rat)
  | _ => .null

/-- Line 79: `df["연월"]`, the closing month truncated to its first day. -/
def ymOf (r : Row) : Cell :=
  match r.lookup colClose with
  | some (.date y m _) => .date y m 1
  | _ => .null

/-- The numeric columns coerced on lines 81-85, in source order. -/
def numColsList : List (List Char) :=
  [colQty, colAmt, colPrice, colPlant, colGroup]

/-- Best-effort numeric parse of a string, as `pd.to_numeric` on text:
optionally signed decimal digits with an optional fractional part. -/
def parseRat? (l0 : List Char) : Option Rat :=
  let l := pyStrip l0
  match l with
  | [] => none
  | c :: rest =>
    let body := if c = '-' ∨ c = '+' then rest else c :: rest
    let sgn : Rat := if c = '-' then -1 else 1
    match splitOnChar '.' body with
    | [ip] =>
      if ip ≠ [] ∧ ip.all isDigitChar then
        some (sgn * ((ip.foldl (fun a ch => 10 * a + digitVal ch) 0 : Nat) : Rat))
      else none
    | [ip, fp] =>
      if (ip ≠ [] ∨ fp ≠ []) ∧ ip.all isDigitChar ∧ fp.all isDigitChar then
        some (sgn * (((ip.foldl (fun a ch => 10 * a + digitVal ch) 0 : Nat) : Rat)
          + ((fp.foldl (fun a ch => 10 * a + digitVal ch) 0 : Nat) : Rat) / ((10 : Rat) ^ fp.length)))
      else none
    | _ => none

/-- Lines 84-85: `pd.to_numeric(df[col], errors="coerce").fillna(0)` on one
cell — numbers stay, parseable strings parse, everything else becomes 0. -/
def coerceCell (c : Cell) : Cell :=
  match c with
  | .num q => .num q
  | .str s => .num ((parseRat? s).getD 0)
  | .null => .num 0
  | .date _ _ _ => .num 0

/-- The numeric coercion applied to every present numeric column of a row. -/
def coerceRow (present : List (List Char)) (r : Row) : Row :=
  present.foldl (fun row n => mapRowVal n coerceCell row) r

/-- Lines 81-85 on the frame. -/
def coerceStep (f : Frame) : Frame :=
  ⟨f.cols, f.rows.map (coerceRow (numColsList.filter (fun c => f.cols.contains c)))⟩

/-- Line 88: `df["공급업체명"].astype(str).str.strip()` on one cell. -/
def stripNameCell (c : Cell) : Cell := .str (pyStrip (cellPyStr c))

def nameStep (f : Frame) : Frame :=
  if f.cols.contains colName then mapColCell colName stripNameCell f else f

/-- `clean_supplier_code` (lines 91-105).  The argument is the raw cell as a
Python string, with `none` standing for a missing value (`pd.isna`). -/
def clean_supplier_code (x : Option (List Char)) : List Char :=
  match x with
  | none => []
  | some s =>
    if (s.map lowerChar = "nan".data ∨ s.map lowerChar = "none".data ∨ s = [])
        ∨ pyStrip s = [] then []
    else
      if endsWithD (pyStrip s) ['.', '0'] then (pyStrip s).take ((pyStrip s).length - 2)
      else if endsWithD (pyStrip s) ['.', '0', '0'] then
        (pyStrip s).take ((pyStrip s).length - 3)
      else pyStrip s

/-- Modelled from the spec (claim C10): an input to the supplier-code
normalizer is missing-like when it is NaN/None, empty, whitespace-only, or
the string "nan"/"none" in any letter case. -/
def missingLike (x : Option (List Char)) : Bool :=
  match x with
  | none => true
  | some s =>
    s.isEmpty || s.all isPyWs || (s.map lowerChar == "nan".data)
      || (s.map lowerChar == "none".data)

/-- The Python string handed to `clean_supplier_code` for a cell. -/
def cellOptStr (c : Cell) : Option (List Char) :=
  match c with
  | .null => none
  | c => some (cellPyStr c)

def cleanCodeCell (c : Cell) : Cell := .str (clean_supplier_code (cellOptStr c))

/-- The supplier display value of lines 110-114, as a function of the cleaned
code string and the raw name string of the row. -/
def supplierDisplay (code name : List Char) : List Char :=
  if code ≠ [] ∧ pyStrip name ≠ [] ∧ name ≠ "nan".data then code ++ '_' :: pyStrip name
  else if name = "nan".data then [] else pyStrip name

/-- The row lambda of lines 110-114.  A row without the supplier-name key
would raise a `KeyError` in the source; the model reads it as `"nan"`. -/
def displayOf (r : Row) : Cell :=
  let code := match r.lookup colCode with
              | some c => cellPyStr c
              | none => "nan".data
  let name := match r.lookup colName with
              | some c => cellPyStr c
              | none => "nan".data
  .str (supplierDisplay code name)

/-- Lines 89-117: clean the supplier code and build the display column, or
copy the supplier name when no code column exists. -/
def codeDisplayStep (f : Frame) : Frame :=
  if f.cols.contains colCode then
    setColWith colDisp displayOf (mapColCell colCode cleanCodeCell f)
  else if f.cols.contains colName then
    setColWith colDisp (fun r => (r.lookup colName).getD .null) f
  else f

/-- The error message of line 70. -/
def errMissingClose : List Char :=
  ' ' :: '\'' :: ("마감월".data ++ ('\'' :: (" 컬럼을 찾을 수 없습니다. 헤더명을 확인해 주세요.").data))

/-- `load_csv` (lines 61-119) on a parsed CSV (headers and cell rows).
`st.error` followed by `st.stop` is modelled as an `Except.error` carrying
the message: no frame is produced and nothing follows. -/
def load_csv (cols : List (List Char)) (cells : List (List Cell)) : Except (List Char) Frame :=
  let f := standardize ⟨cols, cells.map (fun cs => cols.zip cs)⟩
  if f.cols.contains colClose then
    .ok (codeDisplayStep (nameStep (coerceStep
      (setColWith colYM ymOf (setColWith colYear yearOf (dateStep f))))))
  else .error errMissingClose

/-- Rows of a load result (none on error). -/
def loadedRows (e : Except (List Char) Frame) : List Row :=
  match e with
  | .ok fr => fr.rows
  | .error _ => []

/-- Columns of a load result (none on error). -/
def loadedCols (e : Except (List Char) Frame) : List (List Char) :=
  match e with
  | .ok fr => fr.cols
  | .error _ => []

/-- Cell of row `i`, column `n` of a load result. -/
def lookupCell (e : Except (List Char) Frame) (i : Nat) (n : List Char) : Option Cell :=
  ((loadedRows e).getD i []).lookup n

/-! ### SQL list builders and filter clauses (lines 122-140, 306-342) -/

/-- `sql_list_num` (lines 122-123): comma-joined integer literals, or the
impossible sentinel `-1` for an empty selection. -/
def sql_list_num (vals : List Int) : String :=
  if vals.isEmpty then ("-1" : String)
  else String.mk (joinSep ',' (vals.map intStr))

/-- `sql_list_str` (lines 126-140): each value is stripped, dropped if `None`
or empty, escaped by quote-doubling and wrapped in quotes; the results are
comma-joined, with an empty-string literal for an empty list. -/
def sql_list_str (vals : List (Option (List Char))) : String :=
  if vals.isEmpty then String.mk ['\'', '\'']
  else
    let safe := vals.filterMap (fun v? =>
      match v? with
      | none => none
      | some v =>
        let s := pyStrip v
        if s.isEmpty then none else some (strLiteral s))
    if safe.isEmpty then String.mk ['\'', '\''] else String.mk (joinSep ',' safe)

/-- Lines 307-308: the plant clause is appended whenever the option list is
non-empty, regardless of the selection. -/
def plantClause (plants_all sel : List Int) : List String :=
  if plants_all.isEmpty then []
  else [("플랜트 IN (" ++ sql_list_num sel ++ ")")]

/-- Lines 309-310: the purchasing-group clause, same shape. -/
def groupClause (groups_all sel : List Int) : List String :=
  if groups_all.isEmpty then []
  else [("구매그룹 IN (" ++ sql_list_num sel ++ ")")]

/-- Lines 337-338: the part clause is appended only when the selection is
also non-empty. -/
def partsClause (parts_all sel : List (List Char)) : List String :=
  if ¬ parts_all.isEmpty ∧ ¬ sel.isEmpty then
    [("파트 IN (" ++ sql_list_str (sel.map Option.some) ++ ")")]
  else []

/-- Evaluation of the membership condition `col IN ( lst )` generated with
`sql_list_num`: the comma-separated integer literals are parsed and the row
value is compared against them (DuckDB semantics of an integer `IN` list). -/
def numInSem (lst : String) (v : Int) : Bool :=
  ((splitOnChar ',' lst.data).filterMap parseIntChars?).contains v

/-! ### `enhance_pattern` (lines 154-164) and `ILIKE` conditions -/

/-- The `"*" → "%"` translation of line 164. -/
def starToPercent (c : Char) : Char := if c = '*' then '%' else c

/-- `enhance_pattern` (lines 154-164): wrap wildcard-free patterns (per word
when the pattern contains a space), then translate `*` to `%` and double
single quotes. -/
def enhance_pattern (p : List Char) : List Char :=
  let p1 :=
    if p.contains '*' then p
    else if p.contains ' ' then '*' :: (joinSep '*' (pySplitWS p) ++ ['*'])
    else '*' :: (p ++ ['*'])
  escapeSq (p1.map starToPercent)

/-- Evaluation of the generated condition `자재명 ILIKE '<patt>'` (line 356)
against a field value: the embedded pattern literal is parsed under SQL
string semantics and matched case-insensitively; a malformed literal matches
nothing. -/
def ilikeCondMatches (patt v : List Char) : Bool :=
  match sqlParseLiteral ('\'' :: (patt ++ ['\''])) with
  | some pl => likeMatch pl v
  | none => false

/-! ### Grouped-sum aggregation (lines 300-306, 609-617) -/

/-- The year and month extracted from a row's closing-month date, as in
`EXTRACT(YEAR FROM 마감월)` / `EXTRACT(MONTH ...)`; null dates extract
nothing and satisfy no condition. -/
def rowYearMonth (r : Row) : Option (Int × Nat) :=
  match r.lookup colClose with
  | some (.date y m _) => some (y, m)
  | _ => none

/-- The year-month filter of lines 301-306: the row's (year, month) is one of
the selected pairs. -/
def ymFilter (sel : List (Int × Nat)) (r : Row) : Bool :=
  match rowYearMonth r with
  | some p => sel.contains p
  | none => false

/-- `SUM(col)` over rows, with SQL semantics of ignoring non-numeric cells. -/
def sumCol (rows : List Row) (c : List Char) : Rat :=
  rows.foldl (fun a r =>
    a + (match r.lookup c with
         | some (.num q) => q
         | _ => 0)) 0

/-- The grouped-sum query of lines 609-617 at group option 전체 and time unit
연도별, for one group key `y`: rows passing the year-month filter whose 연도
equals `y`, summed, with quantity scaled to thousands and amount to millions
(`SUM(송장수량)/1000`, `SUM(송장금액)/1000000`). -/
def aggYearTotals (e : Except (List Char) Frame) (sel : List (Int × Nat)) (y : Int) :
    Rat × Rat :=
  let rows := (loadedRows e).filter
    (fun r => ymFilter sel r && decide (r.lookup colYear = some (.num (y : Rat))))
  (sumCol rows colQty / 1000, sumCol rows colAmt / 1000000)

/-! ### Lemmas: decimal rendering round-trips -/

theorem digitVal_digitChar {d : Nat} (h : d < 10) : digitVal (digitChar d) = d := by
  interval_cases d <;> decide

theorem isDigitChar_digitChar {d : Nat} (h : d < 10) : isDigitChar (digitChar d) = true := by
  interval_cases d <;> decide

theorem natDigitsRev_ne_nil (n : Nat) : natDigitsRev n ≠ [] := by
  rw [natDigitsRev]
  split <;> simp

theorem natDigitsRev_all_digits (n : Nat) : (natDigitsRev n).all isDigitChar = true := by
  induction n using Nat.strongRecOn with
  | _ n ih =>
    rw [natDigitsRev]
    split
    · next h => simp [isDigitChar_digitChar h]
    · next h =>
      simp only [List.all_cons, Bool.and_eq_true]
      exact ⟨isDigitChar_digitChar (Nat.mod_lt _ (by omega)), ih (n / 10) (by omega)⟩

theorem foldr_natDigitsRev (n : Nat) :
    (natDigitsRev n).foldr (fun c a => 10 * a + digitVal c) 0 = n := by
  induction n using Nat.strongRecOn with
  | _ n ih =>
    rw [natDigitsRev]
    split
    · next h => simp [digitVal_digitChar h]
    · next h =>
      simp only [List.foldr_cons]
      rw [ih (n / 10) (by omega), digitVal_digitChar (Nat.mod_lt _ (by omega))]
      omega

theorem parseNatChars_natStr (n : Nat) : parseNatChars? (natStr n) = some n := by
  have hne : natStr n ≠ [] := by
    simp only [natStr, ne_eq, List.reverse_eq_nil_iff]
    exact natDigitsRev_ne_nil n
  have hall : (natStr n).all isDigitChar = true := by
    simp only [natStr, List.all_eq_true]
    intro c hc
    rw [List.mem_reverse] at hc
    exact List.all_eq_true.mp (natDigitsRev_all_digits n) c hc
  rw [parseNatChars?, if_pos ⟨hne, hall⟩]
  simp only [natStr, List.foldl_reverse]
  rw [foldr_natDigitsRev]

theorem natStr_head_digit (n : Nat) {c : Char} {rest : List Char}
    (h : natStr n = c :: rest) : isDigitChar c = true := by
  have := natDigitsRev_all_digits n
  have hc : c ∈ natStr n := by rw [h]; exact List.mem_cons_self _ _
  rw [natStr, List.mem_reverse] at hc
  exact List.all_eq_true.mp this c hc

theorem parseIntChars_intStr (i : Int) : parseIntChars? (intStr i) = some i := by
  rw [intStr]
  split
  · next h =>
    have hstep : parseIntChars? ('-' :: natStr i.natAbs)
        = (parseNatChars? (natStr i.natAbs)).map (fun n => -(n : Int)) := rfl
    rw [hstep, parseNatChars_natStr]
    show some (-(i.natAbs : Int)) = some i
    rw [Option.some.injEq]
    omega
  · next h =>
    have hne : natStr i.natAbs ≠ [] := by
      simp only [natStr, ne_eq, List.reverse_eq_nil_iff]
      exact natDigitsRev_ne_nil _
    match hs : natStr i.natAbs with
    | [] => exact absurd hs hne
    | c :: rest =>
      have hd : isDigitChar c = true := natStr_head_digit _ hs
      have hcne : ¬ c = '-' := by
        intro hc
        rw [hc] at hd
        exact absurd hd (by decide)
      have hstep : parseIntChars? (c :: rest)
          = if c = '-' then (parseNatChars? rest).map (fun n => -(n : Int))
            else (parseNatChars? (c :: rest)).map (fun n => (n : Int)) := rfl
      rw [hstep, if_neg hcne, ← hs, parseNatChars_natStr]
      show some ((i.natAbs : Nat) : Int) = some i
      rw [Option.some.injEq]
      omega

theorem not_comma_of_digit {c : Char} (h : isDigitChar c = true) : c ≠ ',' := by
  intro hc
  rw [hc] at h
  exact absurd h (by decide)

theorem comma_not_mem_intStr (i : Int) : ',' ∉ intStr i := by
  intro hmem
  rw [intStr] at hmem
  have hdig : ∀ c ∈ natStr i.natAbs, isDigitChar c = true := by
    intro c hc
    rw [natStr, List.mem_reverse] at hc
    exact List.all_eq_true.mp (natDigitsRev_all_digits _) c hc
  split at hmem
  · rcases List.mem_cons.mp hmem with h | h
    · exact absurd h.symm (by decide)
    · exact not_comma_of_digit (hdig _ h) rfl
  · exact not_comma_of_digit (hdig _ hmem) rfl

/-! ### Lemmas: comma joining and splitting -/

theorem splitOnChar_ne_nil (sep : Char) (l : List Char) : splitOnChar sep l ≠ [] := by
  cases l with
  | nil => simp [splitOnChar]
  | cons c rest =>
    rw [splitOnChar]
    split
    · simp
    · split <;> simp

theorem splitOnChar_no_sep {sep : Char} {l : List Char} (h : sep ∉ l) :
    splitOnChar sep l = [l] := by
  induction l with
  | nil => rfl
  | cons c rest ih =>
    have hc : ¬ c = sep := fun hc => h (hc ▸ List.mem_cons_self c rest)
    have hr : sep ∉ rest := fun hm => h (List.mem_cons_of_mem _ hm)
    rw [splitOnChar, if_neg hc, ih hr]

theorem splitOnChar_append_sep {sep : Char} {x : List Char} (hx : sep ∉ x)
    (r : List Char) : splitOnChar sep (x ++ sep :: r) = x :: splitOnChar sep r := by
  induction x with
  | nil => simp [splitOnChar]
  | cons c x' ih =>
    have hc : ¬ c = sep := fun hc => hx (hc ▸ List.mem_cons_self c x')
    have hx' : sep ∉ x' := fun hm => hx (List.mem_cons_of_mem _ hm)
    rw [List.cons_append, splitOnChar, if_neg hc, ih hx']

theorem splitOnChar_joinSep {sep : Char} :
    ∀ parts : List (List Char), parts ≠ [] → (∀ p ∈ parts, sep ∉ p) →
      splitOnChar sep (joinSep sep parts) = parts
  | [], h, _ => absurd rfl h
  | [x], _, hall => by
    rw [joinSep, splitOnChar_no_sep (hall x (List.mem_singleton_self x))]
  | x :: y :: rest, _, hall => by
    have hj : joinSep sep (x :: y :: rest) = x ++ sep :: joinSep sep (y :: rest) := rfl
    rw [hj, splitOnChar_append_sep (hall x (List.mem_cons_self _ _))]
    rw [splitOnChar_joinSep (y :: rest) (fun hc => List.noConfusion hc)
      (fun p hp => hall p (List.mem_cons_of_mem _ hp))]

/-! ### Lemmas: semantics of the numeric IN list -/

theorem filterMap_parseInt_map_intStr (l : List Int) :
    (l.map intStr).filterMap parseIntChars? = l := by
  induction l with
  | nil => rfl
  | cons i t ih =>
    rw [List.map_cons, List.filterMap_cons_some (parseIntChars_intStr i), ih]

theorem numInSem_cons_nonempty {vals : List Int} (h : ¬ vals.isEmpty) (v : Int) :
    numInSem (sql_list_num vals) v = vals.contains v := by
  have hvne : vals ≠ [] := by
    intro hv
    rw [hv] at h
    exact h rfl
  rw [numInSem, sql_list_num, if_neg h]
  have hsplit : splitOnChar ',' (String.mk (joinSep ',' (vals.map intStr))).data
      = vals.map intStr := by
    show splitOnChar ',' (joinSep ',' (vals.map intStr)) = vals.map intStr
    apply splitOnChar_joinSep
    · intro hm
      exact hvne (List.map_eq_nil_iff.mp hm)
    · intro p hp
      rcases List.mem_map.mp hp with ⟨i, _, rfl⟩
      exact comma_not_mem_intStr i
  rw [hsplit, filterMap_parseInt_map_intStr]

theorem numInSem_empty (v : Int) : numInSem (sql_list_num []) v = true ↔ v = -1 := by
  have h1 : sql_list_num [] = ("-1" : String) := rfl
  rw [h1, numInSem]
  have h2 : splitOnChar ',' ("-1" : String).data = [['-', '1']] := by decide
  rw [h2]
  have h3 : List.filterMap parseIntChars? [['-', '1']] = [(-1 : Int)] := by decide
  rw [h3]
  simp [List.contains_cons, beq_iff_eq]

/-! ### Lemmas: SQL string-literal escaping round-trips -/

theorem parseBody_cons (c : Char) (rest : List Char) :
    parseBody (c :: rest) =
      if c = '\'' then
        match rest with
        | [] => some ([], [])
        | c2 :: rest2 =>
          if c2 = '\'' then (parseBody rest2).map (fun p => ('\'' :: p.1, p.2))
          else some ([], rest)
      else (parseBody rest).map (fun p => (c :: p.1, p.2)) := by
  rw [parseBody.eq_def]

theorem parseBody_escape (v : List Char) :
    parseBody (escapeSq v ++ ['\'']) = some (v, []) := by
  induction v with
  | nil => rfl
  | cons c v' ih =>
    rw [escapeSq]
    split
    · next hc =>
      have h1 : ∀ rest2 : List Char, parseBody ('\'' :: '\'' :: rest2)
          = (parseBody rest2).map (fun p => ('\'' :: p.1, p.2)) := by
        intro rest2
        rw [parseBody_cons]
        rfl
      subst hc
      simp only [List.cons_append]
      rw [h1, ih]
      rfl
    · next hc =>
      rw [List.cons_append, parseBody_cons, if_neg hc, ih]
      rfl

theorem sqlParseLiteral_strLiteral (v : List Char) :
    sqlParseLiteral (strLiteral v) = some v := by
  have hstep : ∀ rest : List Char, sqlParseLiteral ('\'' :: rest)
      = (match parseBody rest with
         | some (s, []) => some s
         | _ => none) := fun _ => rfl
  show sqlParseLiteral ('\'' :: (escapeSq v ++ ['\''])) = some v
  rw [hstep, parseBody_escape]

/-! ### Lemmas: `LIKE` pattern matching versus substring containment -/

theorem boolEqIff (a b : Bool) : a = b ↔ ((a = true) ↔ (b = true)) := by
  cases a <;> cases b <;> simp

theorem mem_tails {v s : List Char} : s ∈ tails v ↔ ∃ v1, v = v1 ++ s := by
  induction v with
  | nil =>
    constructor
    · intro h
      rw [tails, List.mem_singleton] at h
      subst h
      exact ⟨[], rfl⟩
    · rintro ⟨v1, hv⟩
      rcases List.append_eq_nil.mp hv.symm with ⟨rfl, rfl⟩
      exact List.mem_singleton_self _
  | cons c v' ih =>
    rw [tails]
    constructor
    · intro h
      rcases List.mem_cons.mp h with h | h
      · exact ⟨[], by rw [h, List.nil_append]⟩
      · rcases ih.mp h with ⟨v1, hv⟩
        exact ⟨c :: v1, by rw [hv, List.cons_append]⟩
    · rintro ⟨v1, hv⟩
      cases v1 with
      | nil =>
        rw [List.nil_append] at hv
        exact List.mem_cons.mpr (Or.inl hv.symm)
      | cons e v1' =>
        rw [List.cons_append] at hv
        injection hv with he hv'
        exact List.mem_cons.mpr (Or.inr (ih.mpr ⟨v1', hv'⟩))

theorem likeMatch_nil (v : List Char) : likeMatch [] v = v.isEmpty := rfl

theorem likeMatch_cons (c : Char) (p v : List Char) :
    likeMatch (c :: p) v =
      if c = '%' then (tails v).any (fun s => likeMatch p s)
      else
        match v with
        | [] => false
        | d :: v' =>
          if c = '_' then likeMatch p v'
          else (lowerChar c == lowerChar d) && likeMatch p v' := rfl

theorem likeMatch_cons_nil {c : Char} (hc1 : ¬ c = '%') (p : List Char) :
    likeMatch (c :: p) [] = false := by
  rw [likeMatch_cons, if_neg hc1]

theorem likeMatch_plain_cons {c : Char} (hc1 : ¬ c = '%') (hc2 : ¬ c = '_')
    (p : List Char) (d : Char) (v' : List Char) :
    likeMatch (c :: p) (d :: v') = ((lowerChar c == lowerChar d) && likeMatch p v') := by
  rw [likeMatch_cons, if_neg hc1]
  show (if c = '_' then likeMatch p v'
        else (lowerChar c == lowerChar d) && likeMatch p v') = _
  rw [if_neg hc2]

theorem likeMatch_percent (p v : List Char) :
    likeMatch ('%' :: p) v = true ↔ ∃ v1 v2, v = v1 ++ v2 ∧ likeMatch p v2 = true := by
  rw [likeMatch_cons, if_pos rfl, List.any_eq_true]
  constructor
  · rintro ⟨s, hs, hm⟩
    rcases mem_tails.mp hs with ⟨v1, hv⟩
    exact ⟨v1, s, hv, hm⟩
  · rintro ⟨v1, v2, hv, hm⟩
    exact ⟨v2, mem_tails.mpr ⟨v1, hv⟩, hm⟩

theorem likeMatch_just_percent (v : List Char) : likeMatch ['%'] v = true := by
  rw [likeMatch_cons, if_pos rfl, List.any_eq_true]
  exact ⟨[], mem_tails.mpr ⟨v, by rw [List.append_nil]⟩, rfl⟩

theorem likeMatch_plain_percent {t : List Char} (hpct : '%' ∉ t) (hus : '_' ∉ t) :
    ∀ v : List Char, likeMatch (t ++ ['%']) v = true ↔
      ∃ v1 v2, v = v1 ++ v2 ∧ t.map lowerChar = v1.map lowerChar := by
  induction t with
  | nil =>
    intro v
    simp only [List.nil_append, List.map_nil]
    constructor
    · intro _
      exact ⟨[], v, rfl, rfl⟩
    · intro _
      exact likeMatch_just_percent v
  | cons c t' ih =>
    have hc1 : ¬ c = '%' := fun hc => hpct (hc ▸ List.mem_cons_self c t')
    have hc2 : ¬ c = '_' := fun hc => hus (hc ▸ List.mem_cons_self c t')
    have hpct' : '%' ∉ t' := fun hm => hpct (List.mem_cons_of_mem _ hm)
    have hus' : '_' ∉ t' := fun hm => hus (List.mem_cons_of_mem _ hm)
    intro v
    rw [List.cons_append]
    cases v with
    | nil =>
      rw [likeMatch_cons_nil hc1]
      simp only [List.map_cons]
      constructor
      · intro h
        exact absurd h (by simp)
      · rintro ⟨v1, v2, hv, hmap⟩
        rcases List.append_eq_nil.mp hv.symm with ⟨rfl, rfl⟩
        exact absurd hmap (by simp)
    | cons d v' =>
      rw [likeMatch_plain_cons hc1 hc2]
      simp only [Bool.and_eq_true, beq_iff_eq]
      rw [ih hpct' hus' v']
      constructor
      · rintro ⟨hlow, v1, v2, hv, hmap⟩
        refine ⟨d :: v1, v2, by rw [hv, List.cons_append], ?_⟩
        simp only [List.map_cons]
        rw [hlow, hmap]
      · rintro ⟨v1, v2, hv, hmap⟩
        cases v1 with
        | nil => exact absurd hmap (by simp)
        | cons e v1' =>
          rw [List.cons_append] at hv
          injection hv with he hv'
          simp only [List.map_cons] at hmap
          injection hmap with hlow hmap'
          subst he
          exact ⟨hlow, v1', v2, hv', hmap'⟩

theorem startsWith_iff (a : List Char) : ∀ b : List Char,
    startsWith a b = true ↔ ∃ r, b = a ++ r := by
  induction a with
  | nil =>
    intro b
    simp only [startsWith, List.nil_append]
    exact ⟨fun _ => ⟨b, rfl⟩, fun _ => trivial⟩
  | cons c a' ih =>
    intro b
    cases b with
    | nil =>
      simp only [startsWith]
      constructor
      · intro h
        exact absurd h (by simp)
      · rintro ⟨r, hr⟩
        exact absurd hr (by simp)
    | cons d b' =>
      simp only [startsWith, Bool.and_eq_true, beq_iff_eq]
      rw [ih b']
      constructor
      · rintro ⟨rfl, r, rfl⟩
        exact ⟨r, rfl⟩
      · rintro ⟨r, hr⟩
        rw [List.cons_append] at hr
        injection hr with he hb'
        exact ⟨he.symm, r, hb'⟩

theorem containsSub_iff (t : List Char) : ∀ v : List Char,
    containsSub t v = true ↔ ∃ p q, v = p ++ (t ++ q) := by
  intro v
  induction v with
  | nil =>
    rw [containsSub]
    constructor
    · intro h
      exact ⟨[], [], by simp [List.isEmpty_iff.mp h]⟩
    · rintro ⟨p, q, hpq⟩
      rcases List.append_eq_nil.mp hpq.symm with ⟨rfl, h2⟩
      rcases List.append_eq_nil.mp h2 with ⟨rfl, rfl⟩
      rfl
  | cons c v' ih =>
    rw [containsSub]
    simp only [Bool.or_eq_true]
    rw [startsWith_iff, ih]
    constructor
    · rintro (⟨r, hr⟩ | ⟨p, q, hpq⟩)
      · exact ⟨[], r, by rw [hr, List.nil_append]⟩
      · exact ⟨c :: p, q, by rw [hpq, List.cons_append]⟩
    · rintro ⟨p, q, hpq⟩
      cases p with
      | nil =>
        left
        rw [List.nil_append] at hpq
        exact ⟨q, hpq⟩
      | cons e p' =>
        right
        rw [List.cons_append] at hpq
        injection hpq with he hv'
        exact ⟨p', q, hv'⟩

theorem likeMatch_substring {t : List Char} (hpct : '%' ∉ t) (hus : '_' ∉ t)
    (v : List Char) :
    likeMatch ('%' :: (t ++ ['%'])) v = containsSub (t.map lowerChar) (v.map lowerChar) := by
  rw [boolEqIff, likeMatch_percent, containsSub_iff]
  constructor
  · rintro ⟨v1, v2, hv, hm⟩
    rcases (likeMatch_plain_percent hpct hus v2).mp hm with ⟨v21, v22, hv2, hmap⟩
    refine ⟨v1.map lowerChar, v22.map lowerChar, ?_⟩
    rw [hv, hv2]
    simp only [List.map_append]
    rw [hmap]
  · rintro ⟨p, q, hpq⟩
    have hlen : (t.map lowerChar).length = t.length := List.length_map t lowerChar
    refine ⟨v.take p.length, v.drop p.length, (List.take_append_drop p.length v).symm, ?_⟩
    apply (likeMatch_plain_percent hpct hus _).mpr
    refine ⟨(v.drop p.length).take t.length, (v.drop p.length).drop t.length,
      (List.take_append_drop t.length (v.drop p.length)).symm, ?_⟩
    rw [List.map_take, List.map_drop, hpq, List.drop_left, ← hlen, List.take_left]

/-! ### Lemmas: `enhance_pattern` on a single bare word -/

theorem map_starToPercent_id {t : List Char} (h : '*' ∉ t) : t.map starToPercent = t := by
  induction t with
  | nil => rfl
  | cons c t' ih =>
    have hc : ¬ c = '*' := fun hc => h (hc ▸ List.mem_cons_self c t')
    rw [List.map_cons, ih (fun hm => h (List.mem_cons_of_mem _ hm))]
    rw [show starToPercent c = c from by rw [starToPercent, if_neg hc]]

theorem contains_eq_false_of_not_mem {c : Char} {l : List Char} (h : c ∉ l) :
    l.contains c = false := by
  rw [← Bool.not_eq_true]
  intro hc
  exact h (List.mem_of_elem_eq_true hc)

theorem enhance_pattern_single {t : List Char} (hstar : '*' ∉ t) (hsp : ' ' ∉ t) :
    enhance_pattern t = escapeSq ('%' :: (t ++ ['%'])) := by
  rw [enhance_pattern]
  rw [contains_eq_false_of_not_mem hstar, contains_eq_false_of_not_mem hsp]
  show escapeSq (('*' :: (t ++ ['*'])).map starToPercent) = _
  rw [List.map_cons, List.map_append, map_starToPercent_id hstar]
  rfl

theorem ilike_enhanced_single {t : List Char} (hstar : '*' ∉ t) (hsp : ' ' ∉ t)
    (hpct : '%' ∉ t) (hus : '_' ∉ t) (v : List Char) :
    ilikeCondMatches (enhance_pattern t) v
      = containsSub (t.map lowerChar) (v.map lowerChar) := by
  rw [ilikeCondMatches, enhance_pattern_single hstar hsp]
  show (match sqlParseLiteral (strLiteral ('%' :: (t ++ ['%']))) with
        | some pl => likeMatch pl v
        | none => false) = _
  rw [sqlParseLiteral_strLiteral]
  show likeMatch ('%' :: (t ++ ['%'])) v = _
  exact likeMatch_substring hpct hus v

/-! ### Lemmas: row lookups through the pipeline steps -/

theorem beqListChar_false {a b : List Char} (h : ¬ a = b) : (a == b) = false := by
  rw [Bool.eq_false_iff]
  intro hc
  exact h (by simpa using hc)

theorem lookup_cons_eq (k : List Char) (v : Cell) (r : Row) :
    List.lookup k ((k, v) :: r) = some v := by
  rw [List.lookup, show (k == k) = true from by simp]

theorem lookup_cons_ne {c k : List Char} (h : ¬ c = k) (v : Cell) (r : Row) :
    List.lookup c ((k, v) :: r) = List.lookup c r := by
  rw [List.lookup, beqListChar_false h]

theorem lookup_mapRowVal (n c : List Char) (g : Cell → Cell) (r : Row) :
    (mapRowVal n g r).lookup c = if c = n then (r.lookup c).map g else r.lookup c := by
  induction r with
  | nil =>
    show (none : Option Cell) = if c = n then Option.map g none else none
    split <;> rfl
  | cons kv r' ih =>
    rcases kv with ⟨k, v⟩
    rw [mapRowVal]
    by_cases h2 : c = k
    · subst h2
      by_cases h1 : c = n
      · rw [if_pos (h1 ▸ rfl), if_pos h1, lookup_cons_eq, lookup_cons_eq]
        rfl
      · rw [if_neg (fun he => h1 he), if_neg h1, lookup_cons_eq, lookup_cons_eq]
    · by_cases h1 : k = n
      · rw [if_pos h1, lookup_cons_ne h2, lookup_cons_ne h2, ih]
      · rw [if_neg h1, lookup_cons_ne h2, lookup_cons_ne h2, ih]

theorem lookup_none_of_any_false {r : Row} {n : List Char}
    (h : r.any (fun kv => kv.1 == n) = false) : r.lookup n = none := by
  induction r with
  | nil => rfl
  | cons kv r' ih =>
    rcases kv with ⟨k, v⟩
    simp only [List.any_cons, Bool.or_eq_false_iff] at h
    have hkn : ¬ n = k := by
      intro he
      subst he
      rcases h with ⟨h1, _⟩
      simp at h1
    rw [lookup_cons_ne hkn]
    exact ih h.2

theorem lookup_some_of_any_true {r : Row} {n : List Char}
    (h : r.any (fun kv => kv.1 == n) = true) : ∃ cv, r.lookup n = some cv := by
  induction r with
  | nil => exact absurd h (by simp)
  | cons kv r' ih =>
    rcases kv with ⟨k, v⟩
    simp only [List.any_cons, Bool.or_eq_true] at h
    by_cases hk : n = k
    · subst hk
      exact ⟨v, lookup_cons_eq n v r'⟩
    · rw [lookup_cons_ne hk]
      rcases h with h | h
      · exact absurd (by simpa using h : k = n) (fun he => hk he.symm)
      · exact ih h

theorem lookup_append_single_ne {r : Row} {n c : List Char} (h : ¬ c = n) (c0 : Cell) :
    (r ++ [(n, c0)]).lookup c = r.lookup c := by
  induction r with
  | nil =>
    show (List.lookup c [(n, c0)] : Option Cell) = none
    rw [lookup_cons_ne h]
    rfl
  | cons kv r' ih =>
    rcases kv with ⟨k, v⟩
    rw [List.cons_append]
    by_cases h2 : c = k
    · subst h2
      rw [lookup_cons_eq, lookup_cons_eq]
    · rw [lookup_cons_ne h2, lookup_cons_ne h2, ih]

theorem lookup_setRowCell_self (n : List Char) (c0 : Cell) (r : Row) :
    (setRowCell n c0 r).lookup n = some c0 := by
  rw [setRowCell]
  split
  · next hany =>
    rcases lookup_some_of_any_true hany with ⟨cv, hcv⟩
    rw [lookup_mapRowVal, if_pos rfl, hcv]
    rfl
  · next hany =>
    have hnone : r.lookup n = none :=
      lookup_none_of_any_false (Bool.eq_false_iff.mpr hany)
    induction r with
    | nil =>
      show (List.lookup n [(n, c0)] : Option Cell) = some c0
      exact lookup_cons_eq n c0 []
    | cons kv r' ih =>
      rcases kv with ⟨k, v⟩
      by_cases h2 : n = k
      · subst h2
        rw [lookup_cons_eq] at hnone
        exact absurd hnone (by simp)
      · rw [List.cons_append, lookup_cons_ne h2]
        rw [lookup_cons_ne h2] at hnone
        refine ih ?_ hnone
        intro hcontra
        apply hany
        rw [List.any_cons, hcontra, Bool.or_true]

theorem lookup_setRowCell_ne {n c : List Char} (h : ¬ c = n) (c0 : Cell) (r : Row) :
    (setRowCell n c0 r).lookup c = r.lookup c := by
  rw [setRowCell]
  split
  · rw [lookup_mapRowVal, if_neg h]
  · exact lookup_append_single_ne h c0

/-- After the per-column numeric coercion, a coerced column holds only
numbers (or is absent from the row). -/
theorem lookup_coerceRow_preserved {c : List Char} :
    ∀ (present : List (List Char)) (r : Row),
      (r.lookup c = none ∨ ∃ q, r.lookup c = some (.num q)) →
      ((coerceRow present r).lookup c = none ∨
        ∃ q, (coerceRow present r).lookup c = some (.num q))
  | [], r, h => h
  | n :: rest, r, h => by
    rw [coerceRow, List.foldl_cons, ← coerceRow]
    apply lookup_coerceRow_preserved rest
    rw [lookup_mapRowVal]
    by_cases hc : c = n
    · rw [if_pos hc]
      rcases h with h | ⟨q, h⟩
      · rw [h]
        exact Or.inl rfl
      · rw [h]
        exact Or.inr ⟨q, rfl⟩
    · rw [if_neg hc]
      exact h

theorem lookup_coerceRow_mem {c : List Char} :
    ∀ (present : List (List Char)) (r : Row), c ∈ present →
      ((coerceRow present r).lookup c = none ∨
        ∃ q, (coerceRow present r).lookup c = some (.num q))
  | [], _, hmem => absurd hmem (List.not_mem_nil c)
  | n :: rest, r, hmem => by
    rw [coerceRow, List.foldl_cons, ← coerceRow]
    by_cases hc : c ∈ rest
    · exact lookup_coerceRow_mem rest _ hc
    · have hcn : c = n := by
        rcases List.mem_cons.mp hmem with h | h
        · exact h
        · exact absurd h hc
      apply lookup_coerceRow_preserved rest
      rw [lookup_mapRowVal, if_pos hcn]
      rcases hl : r.lookup c with _ | cv
      · exact Or.inl rfl
      · refine Or.inr ?_
        cases cv <;> exact ⟨_, rfl⟩

/-! ### Lemmas: columns through the pipeline steps -/

theorem dateStep_cols (f : Frame) : (dateStep f).cols = f.cols := by
  rw [dateStep]
  split <;> rfl

theorem coerceStep_cols (f : Frame) : (coerceStep f).cols = f.cols := rfl

theorem nameStep_cols (f : Frame) : (nameStep f).cols = f.cols := by
  rw [nameStep]
  split <;> rfl

theorem contains_append_single_ne {l : List (List Char)} {c n : List Char}
    (h : ¬ c = n) : (l ++ [n]).contains c = l.contains c := by
  induction l with
  | nil =>
    show ((c == n) || List.contains [] c) = _
    rw [beqListChar_false h]
    rfl
  | cons k l' ih =>
    show ((c == k) || (l' ++ [n]).contains c) = ((c == k) || l'.contains c)
    rw [ih]

theorem contains_setColWith_ne {c n : List Char} (h : ¬ c = n) (g : Row → Cell)
    (f : Frame) : (setColWith n g f).cols.contains c = f.cols.contains c := by
  rw [setColWith]
  split
  · rfl
  · exact contains_append_single_ne h

theorem codeDisplayStep_contains {c : List Char} (h : ¬ c = colDisp) (f : Frame) :
    (codeDisplayStep f).cols.contains c = f.cols.contains c := by
  rw [codeDisplayStep]
  split
  · rw [contains_setColWith_ne h]
    rfl
  · split
    · rw [contains_setColWith_ne h]
    · rfl

/-- The frame produced by a successful load, in terms of the pipeline. -/
theorem load_csv_ok {cols : List (List Char)} {cells : List (List Cell)} {fr : Frame} :
    load_csv cols cells = .ok fr ↔
      ((standardize ⟨cols, cells.map (fun cs => cols.zip cs)⟩).cols.contains colClose = true ∧
        fr = codeDisplayStep (nameStep (coerceStep (setColWith colYM ymOf
          (setColWith colYear yearOf
            (dateStep (standardize ⟨cols, cells.map (fun cs => cols.zip cs)⟩))))))) := by
  simp only [load_csv]
  split
  · next hcond =>
    constructor
    · intro h
      injection h with h
      exact ⟨hcond, h.symm⟩
    · rintro ⟨_, rfl⟩
      rfl
  · next hcond =>
    constructor
    · intro h
      exact Except.noConfusion h
    · rintro ⟨hc, _⟩
      exact absurd hc hcond

/-! ### Lemmas: tracing a column through the tail of the pipeline -/

theorem lookup_c_codeDisplayStep {c : List Char} (hd : ¬ c = colDisp)
    (hcd : ¬ c = colCode) (f : Frame) {r : Row} (hr : r ∈ (codeDisplayStep f).rows) :
    ∃ r0 ∈ f.rows, r.lookup c = r0.lookup c := by
  rw [codeDisplayStep] at hr
  split at hr
  · obtain ⟨r1, hr1, rfl⟩ := List.mem_map.mp hr
    obtain ⟨r2, hr2, rfl⟩ := List.mem_map.mp hr1
    refine ⟨r2, hr2, ?_⟩
    rw [lookup_setRowCell_ne hd, lookup_mapRowVal, if_neg hcd]
  · split at hr
    · obtain ⟨r1, hr1, rfl⟩ := List.mem_map.mp hr
      exact ⟨r1, hr1, lookup_setRowCell_ne hd _ _⟩
    · exact ⟨r, hr, rfl⟩

theorem lookup_c_nameStep {c : List Char} (hn : ¬ c = colName) (f : Frame) {r : Row}
    (hr : r ∈ (nameStep f).rows) : ∃ r0 ∈ f.rows, r.lookup c = r0.lookup c := by
  rw [nameStep] at hr
  split at hr
  · obtain ⟨r1, hr1, rfl⟩ := List.mem_map.mp hr
    refine ⟨r1, hr1, ?_⟩
    rw [lookup_mapRowVal, if_neg hn]
  · exact ⟨r, hr, rfl⟩

theorem lookup_c_coerceStep {c : List Char} (hmem : c ∈ numColsList) {f : Frame}
    (hcc : f.cols.contains c = true) {r : Row} (hr : r ∈ (coerceStep f).rows) :
    r.lookup c = none ∨ ∃ q, r.lookup c = some (.num q) := by
  obtain ⟨r1, _, rfl⟩ := List.mem_map.mp hr
  exact lookup_coerceRow_mem _ r1 (List.mem_filter.mpr ⟨hmem, hcc⟩)

/-! ### Claim theorems -/

/-- C9: when the mandatory closing-month column cannot be found after
normalization, `load_csv` fails with the user-facing error naming the
missing column (마감월), producing no frame — all further processing halts
with no partial recovery. -/
theorem c9_missing_column_fails (cols : List (List Char)) (cells : List (List Cell))
    (h : (standardizeCols cols).contains colClose = false) :
    load_csv cols cells = .error errMissingClose ∧
      containsSub colClose errMissingClose = true := by
  refine ⟨?_, by decide⟩
  simp only [load_csv]
  have hc : (standardize ⟨cols, cells.map (fun cs => cols.zip cs)⟩).cols
      = standardizeCols cols := rfl
  rw [hc, h]
  rfl

theorem c9_missing_column_fails_witness :
    load_csv [['a']] [[Cell.num 1]] = .error errMissingClose ∧
      containsSub colClose errMissingClose = true :=
  c9_missing_column_fails [['a']] [[Cell.num 1]] (by decide)

/-- C8: every cell stored in a present numeric column (quantity, amount,
unit price, plant, group) of a loaded frame is a number — never null — and
a cell whose numeric parse fails (or a missing cell) is coerced to zero. -/
theorem c8_numeric_fields_total (cols : List (List Char)) (cells : List (List Cell))
    (c : List Char) (hc : c ∈ numColsList)
    (hcc : (loadedCols (load_csv cols cells)).contains c = true) :
    (∀ r ∈ loadedRows (load_csv cols cells), ∀ cell, r.lookup c = some cell →
        ∃ q, cell = Cell.num q) ∧
      (∀ s, parseRat? s = none → coerceCell (.str s) = .num 0) ∧
      coerceCell .null = .num 0 := by
  refine ⟨?_, ?_, rfl⟩
  · cases he : load_csv cols cells with
    | error msg =>
      intro r hr
      simp [loadedRows] at hr
    | ok fr =>
      rcases load_csv_ok.mp he with ⟨_, hfr⟩
      have hne : ¬ c = colDisp ∧ ¬ c = colName ∧ ¬ c = colCode := by
        fin_cases hc <;> exact ⟨by decide, by decide, by decide⟩
      obtain ⟨hd, hn, hcd⟩ := hne
      subst hfr
      intro r hr cell hcell
      rw [he] at hcc
      have hcc1 : (codeDisplayStep (nameStep (coerceStep (setColWith colYM ymOf
          (setColWith colYear yearOf (dateStep (standardize ⟨cols,
            cells.map (fun cs => cols.zip cs)⟩))))))).cols.contains c = true := hcc
      rw [codeDisplayStep_contains hd] at hcc1
      rw [nameStep_cols, coerceStep_cols] at hcc1
      obtain ⟨r1, hr1, hl1⟩ := lookup_c_codeDisplayStep hd hcd _ hr
      obtain ⟨r2, hr2, hl2⟩ := lookup_c_nameStep hn _ hr1
      have h3 := lookup_c_coerceStep hc hcc1 hr2
      rw [hl1, hl2] at hcell
      rcases h3 with h3 | ⟨q, h3⟩
      · rw [h3] at hcell
        exact Option.noConfusion hcell
      · rw [h3] at hcell
        injection hcell with hcell
        exact ⟨q, hcell.symm⟩
  · intro s hs
    rw [coerceCell, hs]
    rfl

theorem c8_numeric_fields_total_witness :
    colPlant ∈ numColsList ∧
      (loadedCols (load_csv [colClose, colPlant] [[Cell.num 1, Cell.str ['x']]])).contains
        colPlant = true ∧
      (∀ r ∈ loadedRows (load_csv [colClose, colPlant] [[Cell.num 1, Cell.str ['x']]]),
        ∀ cell, r.lookup colPlant = some cell → ∃ q, cell = Cell.num q) :=
  ⟨by decide, by decide,
    (c8_numeric_fields_total [colClose, colPlant] [[Cell.num 1, Cell.str ['x']]]
      colPlant (by decide) (by decide)).1⟩

/-- C7 (amended): in a loaded frame with a supplier-code column, a record
whose cleaned code and stripped name are both non-empty (name not `"nan"`)
displays as code `_` name — the code as-is, with no zero-padding; when the
code is empty the display falls back to the stripped name (empty for
`"nan"`); without a code column the display cell is a copy of the
supplier-name cell. -/
theorem c7_supplier_display (cols : List (List Char)) (cells : List (List Cell))
    (r : Row) (hr : r ∈ loadedRows (load_csv cols cells)) :
    ((loadedCols (load_csv cols cells)).contains colCode = true →
      ∀ code name : List Char,
        r.lookup colCode = some (.str code) → r.lookup colName = some (.str name) →
        r.lookup colDisp = some (.str
          (if code ≠ [] ∧ pyStrip name ≠ [] ∧ name ≠ "nan".data
           then code ++ '_' :: pyStrip name
           else if name = "nan".data then [] else pyStrip name))) ∧
    ((loadedCols (load_csv cols cells)).contains colCode = false →
      (loadedCols (load_csv cols cells)).contains colName = true →
      ∀ cv : Cell, r.lookup colName = some cv → r.lookup colDisp = some cv) := by
  cases he : load_csv cols cells with
  | error msg =>
    rw [he] at hr
    simp [loadedRows] at hr
  | ok fr =>
    rcases load_csv_ok.mp he with ⟨_, hfr⟩
    rw [he] at hr
    subst hfr
    constructor
    · intro hcode code name hc1 hn1
      have hcodeG : (nameStep (coerceStep (setColWith colYM ymOf (setColWith colYear
          yearOf (dateStep (standardize ⟨cols,
            cells.map (fun cs => cols.zip cs)⟩)))))).cols.contains colCode = true := by
        rw [← codeDisplayStep_contains (show ¬ colCode = colDisp by decide)]
        exact hcode
      rw [codeDisplayStep, if_pos hcodeG] at hr
      obtain ⟨r1, hr1, rfl⟩ := List.mem_map.mp hr
      rw [lookup_setRowCell_ne (show ¬ colCode = colDisp by decide)] at hc1
      rw [lookup_setRowCell_ne (show ¬ colName = colDisp by decide)] at hn1
      rw [lookup_setRowCell_self]
      show some (displayOf r1) = _
      rw [displayOf, hc1, hn1]
      rfl
    · intro hcode hname cv hn1
      have hcodeG : (nameStep (coerceStep (setColWith colYM ymOf (setColWith colYear
          yearOf (dateStep (standardize ⟨cols,
            cells.map (fun cs => cols.zip cs)⟩)))))).cols.contains colCode = false := by
        rw [← codeDisplayStep_contains (show ¬ colCode = colDisp by decide)]
        exact hcode
      have hnameG : (nameStep (coerceStep (setColWith colYM ymOf (setColWith colYear
          yearOf (dateStep (standardize ⟨cols,
            cells.map (fun cs => cols.zip cs)⟩)))))).cols.contains colName = true := by
        rw [← codeDisplayStep_contains (show ¬ colName = colDisp by decide)]
        exact hname
      rw [codeDisplayStep, if_neg (by rw [hcodeG]; exact Bool.false_ne_true),
        if_pos hnameG] at hr
      obtain ⟨r1, hr1, rfl⟩ := List.mem_map.mp hr
      rw [lookup_setRowCell_ne (show ¬ colName = colDisp by decide)] at hn1
      rw [lookup_setRowCell_self]
      show some ((r1.lookup colName).getD Cell.null) = some cv
      rw [hn1]
      rfl

/-! ### Lemmas: stripping and suffix removal -/

theorem pyStrip_cons_ws {c : Char} (h : isPyWs c = true) (s : List Char) :
    pyStrip (c :: s) = pyStrip s := by
  rw [pyStrip, pyStrip, List.dropWhile_cons, if_pos h]

theorem pyStrip_empty_iff (s : List Char) : pyStrip s = [] ↔ s.all isPyWs = true := by
  induction s with
  | nil => simp [pyStrip]
  | cons c s' ih =>
    by_cases hc : isPyWs c = true
    · rw [pyStrip_cons_ws hc, ih, List.all_cons, hc, Bool.true_and]
    · have hc' : isPyWs c = false := Bool.eq_false_iff.mpr hc
      constructor
      · intro h
        exfalso
        rw [pyStrip, List.dropWhile_cons, if_neg hc, List.reverse_eq_nil_iff] at h
        have hall := List.dropWhile_eq_nil_iff.mp h
        exact hc (hall c (by simp))
      · intro h
        rw [List.all_cons, hc'] at h
        exact absurd h (by simp)

theorem endsWith_decomp {l suf : List Char} (h : endsWithD l suf = true) :
    l.take (l.length - suf.length) ++ suf = l := by
  rw [endsWithD, Bool.and_eq_true, decide_eq_true_eq, decide_eq_true_eq] at h
  obtain ⟨hle, hdrop⟩ := h
  conv_rhs => rw [← List.take_append_drop (l.length - suf.length) l]
  rw [hdrop]

theorem endToEnd_close :
    lookupCell (load_csv [colClose, colAmt, colQty, ("업체명").data]
        [[.num 45292, .num 1000000, .num 500, .str (("Acme").data)]]) 0 colClose
      = some (.date 2024 1 1) := by
  decide

theorem endToEnd_year :
    lookupCell (load_csv [colClose, colAmt, colQty, ("업체명").data]
        [[.num 45292, .num 1000000, .num 500, .str (("Acme").data)]]) 0 colYear
      = some (.num 2024) := by
  decide

theorem endToEnd_amt :
    lookupCell (load_csv [colClose, colAmt, colQty, ("업체명").data]
        [[.num 45292, .num 1000000, .num 500, .str (("Acme").data)]]) 0 colAmt
      = some (.num 1000000) := by
  decide

theorem endToEnd_qty :
    lookupCell (load_csv [colClose, colAmt, colQty, ("업체명").data]
        [[.num 45292, .num 1000000, .num 500, .str (("Acme").data)]]) 0 colQty
      = some (.num 500) := by
  decide

theorem endToEnd_disp :
    lookupCell (load_csv [colClose, colAmt, colQty, ("업체명").data]
        [[.num 45292, .num 1000000, .num 500, .str (("Acme").data)]]) 0 colDisp
      = some (.str (("Acme").data)) := by
  decide

theorem endToEnd_agg :
    aggYearTotals (load_csv [colClose, colAmt, colQty, ("업체명").data]
        [[.num 45292, .num 1000000, .num 500, .str (("Acme").data)]]) [(2024, 1)] 2024
      = (1/2, 1) := by
  with_unfolding_all decide

/-- C1: loading a CSV with headers 마감월, 송장금액, 송장수량, 업체명 and the
single row `[45292, 1000000, 500, "Acme"]` yields closing-month date
2024-01-01, year 2024, amount 1,000,000, quantity 500 and supplier display
"Acme", and the grouped-sum aggregation restricted to 2024 returns quantity
scaled to thousands = 0.5 and amount scaled to millions = 1. -/
theorem c1_end_to_end :
    lookupCell (load_csv [colClose, colAmt, colQty, ("업체명").data]
        [[.num 45292, .num 1000000, .num 500, .str (("Acme").data)]]) 0 colClose
      = some (.date 2024 1 1) ∧
    lookupCell (load_csv [colClose, colAmt, colQty, ("업체명").data]
        [[.num 45292, .num 1000000, .num 500, .str (("Acme").data)]]) 0 colYear
      = some (.num 2024) ∧
    lookupCell (load_csv [colClose, colAmt, colQty, ("업체명").data]
        [[.num 45292, .num 1000000, .num 500, .str (("Acme").data)]]) 0 colAmt
      = some (.num 1000000) ∧
    lookupCell (load_csv [colClose, colAmt, colQty, ("업체명").data]
        [[.num 45292, .num 1000000, .num 500, .str (("Acme").data)]]) 0 colQty
      = some (.num 500) ∧
    lookupCell (load_csv [colClose, colAmt, colQty, ("업체명").data]
        [[.num 45292, .num 1000000, .num 500, .str (("Acme").data)]]) 0 colDisp
      = some (.str (("Acme").data)) ∧
    aggYearTotals (load_csv [colClose, colAmt, colQty, ("업체명").data]
        [[.num 45292, .num 1000000, .num 500, .str (("Acme").data)]]) [(2024, 1)] 2024
      = (1/2, 1) :=
  ⟨endToEnd_close, endToEnd_year, endToEnd_amt, endToEnd_qty, endToEnd_disp, endToEnd_agg⟩

/-- C2 counterexample: for the part category — a string-valued category
present in the schema (non-empty option list) — an empty selection produces
no clause at all, so every row satisfies all generated part clauses
(vacuously, even under an always-false predicate semantics); the claim's
"the predicate matches no rows" is false for string-valued categories. -/
theorem c2_counterexample :
    partsClause [("A").data] [] = [] ∧
      ((partsClause [("A").data] []).all (fun _ => false)) = true := by
  exact ⟨rfl, rfl⟩

/-- C2 (amended): for the numeric categories (plant shown; group identical),
a non-empty option list always yields a membership clause; a non-empty
selection `S` matches exactly the values in `S`, and the empty selection is
rendered as the sentinel `-1`, matching only the value `-1` (hence no row
with a real, non-negative code).  String-valued categories instead drop the
clause entirely on an empty selection, leaving all rows matching. -/
theorem c2_numeric_filter_semantics (plants_all S : List Int) (v : Int)
    (h : ¬ plants_all.isEmpty = true) :
    plantClause plants_all S = [("플랜트 IN (" ++ sql_list_num S ++ ")")] ∧
    (¬ S.isEmpty = true → (numInSem (sql_list_num S) v = true ↔ v ∈ S)) ∧
    (S.isEmpty = true → (numInSem (sql_list_num S) v = true ↔ v = -1)) ∧
    (∀ parts_all : List (List Char), partsClause parts_all [] = []) := by
  refine ⟨?_, ?_, ?_, ?_⟩
  · rw [plantClause, if_neg h]
  · intro hS
    rw [numInSem_cons_nonempty hS]
    constructor
    · exact fun hc => List.mem_of_elem_eq_true hc
    · exact fun hm => List.elem_eq_true_of_mem hm
  · intro hS
    have hnil : S = [] := by
      cases S with
      | nil => rfl
      | cons a t => exact absurd hS (by simp)
    subst hnil
    exact numInSem_empty v
  · intro parts_all
    rw [partsClause, if_neg (fun hcond => hcond.2 rfl)]

theorem c2_numeric_filter_semantics_witness :
    plantClause [10] [10, 20] = [("플랜트 IN (" ++ sql_list_num [10, 20] ++ ")")] ∧
      (numInSem (sql_list_num [10, 20]) 10 = true ↔ (10 : Int) ∈ [(10 : Int), 20]) := by
  have h := c2_numeric_filter_semantics [10] [10, 20] 10 (by decide)
  exact ⟨h.1, h.2.1 (by decide)⟩

/-- C3 counterexample: the value `" a' "` contains a single quote, but
`sql_list_str` strips it before escaping, so the produced literal re-parses
to `"a'"`, not to the original string. -/
theorem c3_counterexample :
    sql_list_str [some [' ', 'a', '\'', ' ']] = String.mk ['\'', 'a', '\'', '\'', '\''] ∧
      sqlParseLiteral ['\'', 'a', '\'', '\'', '\''] = some ['a', '\''] ∧
      ['a', '\''] ≠ [' ', 'a', '\'', ' '] := by
  exact ⟨rfl, by decide, by decide⟩

/-- C3 (amended): the literal built by the string-set escaper re-parses,
under SQL string-literal semantics, to the whitespace-stripped value; for a
value with no surrounding whitespace (the common case) it round-trips to the
original string, and the parse consumes the entire literal, so the
quote-doubling is injection-safe for this context. -/
theorem c3_escape_roundtrip (v : List Char) (h : '\'' ∈ v) :
    sqlParseLiteral (strLiteral (pyStrip v)) = some (pyStrip v) ∧
      (pyStrip v = v → sqlParseLiteral (strLiteral v) = some v) := by
  refine ⟨sqlParseLiteral_strLiteral _, ?_⟩
  intro he
  have hrt := sqlParseLiteral_strLiteral (pyStrip v)
  rw [he] at hrt
  exact hrt

theorem c3_escape_roundtrip_witness :
    sqlParseLiteral (strLiteral (pyStrip ['O', '\'', 'x'])) = some (pyStrip ['O', '\'', 'x']) ∧
      sqlParseLiteral (strLiteral ['O', '\'', 'x']) = some ['O', '\'', 'x'] := by
  have h := c3_escape_roundtrip ['O', '\'', 'x'] (by decide)
  exact ⟨h.1, h.2 (by decide)⟩

/-- C4 counterexample: `"100%"` is a single word with no `*` and no
whitespace, yet the condition built from its enhanced pattern matches
`"100!"`, a value that does not contain `"100%"` — the `%` metacharacter
leaks from the term into the LIKE pattern. -/
theorem c4_counterexample :
    (['1', '0', '0', '%'].contains '*') = false ∧
      (['1', '0', '0', '%'].all (fun c => !(isPyWs c))) = true ∧
      ilikeCondMatches (enhance_pattern ['1', '0', '0', '%']) ['1', '0', '0', '!'] = true ∧
      containsSub (['1', '0', '0', '%'].map lowerChar)
        (['1', '0', '0', '!'].map lowerChar) = false := by
  exact ⟨by decide, by decide, by decide, by decide⟩

/-- C4 (amended): for a search term that is a single word with no `*`, no
whitespace, and no LIKE metacharacter (`%` or `_`), the generated
case-insensitive ILIKE condition matches exactly those field values that
contain the term as a substring, case-insensitively. -/
theorem c4_single_word_search (t : List Char)
    (hstar : '*' ∉ t) (hws : ∀ c ∈ t, isPyWs c = false)
    (hpct : '%' ∉ t) (hus : '_' ∉ t) (v : List Char) :
    ilikeCondMatches (enhance_pattern t) v
      = containsSub (t.map lowerChar) (v.map lowerChar) := by
  have hsp : ' ' ∉ t := fun hm => absurd (hws ' ' hm) (by decide)
  exact ilike_enhanced_single hstar hsp hpct hus v

theorem c4_single_word_search_witness :
    ilikeCondMatches (enhance_pattern (("Bolt").data)) (("x bolt-3").data)
        = containsSub ((("Bolt").data).map lowerChar) ((("x bolt-3").data).map lowerChar) ∧
      containsSub ((("Bolt").data).map lowerChar) ((("x bolt-3").data).map lowerChar) = true :=
  ⟨c4_single_word_search (("Bolt").data) (by decide) (by decide) (by decide) (by decide)
      (("x bolt-3").data),
    by decide⟩

/-- C5 counterexample: the header 협력업체명 contains the supplier-name token
업체명 as a substring, but the normalizer leaves it unchanged — matching is
by exact synonym equality, not by substring containment as the claim
asserts. -/
theorem c5_counterexample :
    containsSub (("업체명").data) (("협력업체명").data) = true ∧
      renameHeader (("협력업체명").data) = ("협력업체명").data ∧
      ("협력업체명").data ≠ ("공급업체명").data := by
  exact ⟨by decide, by decide, by decide⟩

/-- C5 (amended): a header whose whitespace/parenthesis-stripped normal form
is exactly one of the supplier-name synonyms (업체명, 공급업체명, 밤더명) is
renamed to the canonical supplier-name field 공급업체명. -/
theorem c5_supplier_synonyms (col : List Char)
    (h : normHeader col = ("업체명").data ∨ normHeader col = ("공급업체명").data ∨
      normHeader col = ("밤더명").data) :
    renameHeader col = ("공급업체명").data := by
  simp only [renameHeader]
  rcases h with h | h | h <;> rw [h] <;> rfl

theorem c5_supplier_synonyms_witness :
    normHeader (("업체 명").data) = ("업체명").data ∧
      renameHeader (("업체 명").data) = ("공급업체명").data :=
  ⟨by decide, c5_supplier_synonyms (("업체 명").data) (Or.inl (by decide))⟩

/-- C6 counterexample: `"ABC.0"` is non-numeric (its numeric parse fails),
yet `clean_supplier_code` strips the trailing `".0"` and returns `"ABC"` —
non-numeric codes are not universally preserved unchanged. -/
theorem c6_counterexample :
    parseRat? (("ABC.0").data) = none ∧
      clean_supplier_code (some (("ABC.0").data)) = ("ABC").data ∧
      ("ABC").data ≠ ("ABC.0").data := by
  exact ⟨by decide, by decide, by decide⟩

/-- C6 (amended): supplier-code normalization strips one trailing `".0"` or
`".00"` suffix from any code, numeric or not; codes without such a suffix —
like the non-numeric `"ABC-1"` — are returned unchanged: `"12345.0"` →
`"12345"`, `"ABC-1"` → `"ABC-1"`, and also `"ABC.0"` → `"ABC"`. -/
theorem c6_suffix_strip :
    clean_supplier_code (some (("12345.0").data)) = ("12345").data ∧
      clean_supplier_code (some (("ABC-1").data)) = ("ABC-1").data ∧
      clean_supplier_code (some (("ABC.0").data)) = ("ABC").data := by
  exact ⟨by decide, by decide, by decide⟩

/-- C10: supplier-code normalization is total and never null: missing-like
inputs (NaN/None, empty, whitespace-only, "nan"/"none" in any case) map to
the empty string, and every other input is returned as its stripped string
form, with at most one trailing ".0"/".00" suffix removed. -/
theorem c10_clean_code_total (x : Option (List Char)) :
    (missingLike x = true → clean_supplier_code x = []) ∧
    (∀ s, x = some s → missingLike x = false →
      (clean_supplier_code x = pyStrip s ∨
        clean_supplier_code x ++ ['.', '0'] = pyStrip s ∨
        clean_supplier_code x ++ ['.', '0', '0'] = pyStrip s)) := by
  constructor
  · intro hm
    cases x with
    | none => rfl
    | some s =>
      rw [missingLike] at hm
      simp only [Bool.or_eq_true, beq_iff_eq, List.isEmpty_iff] at hm
      have hcond : (s.map lowerChar = ("nan").data ∨ s.map lowerChar = ("none").data
          ∨ s = []) ∨ pyStrip s = [] := by
        rcases hm with (((h1 | h2) | h3) | h4)
        · exact Or.inl (Or.inr (Or.inr h1))
        · exact Or.inr ((pyStrip_empty_iff s).mpr h2)
        · exact Or.inl (Or.inl h3)
        · exact Or.inl (Or.inr (Or.inl h4))
      rw [clean_supplier_code, if_pos hcond]
  · intro s hx hm
    subst hx
    rw [missingLike] at hm
    simp only [Bool.or_eq_false_iff, beq_eq_false_iff_ne, ne_eq] at hm
    obtain ⟨⟨⟨hemp, hws⟩, hnan⟩, hnone⟩ := hm
    have hcond : ¬ ((s.map lowerChar = ("nan").data ∨ s.map lowerChar = ("none").data
        ∨ s = []) ∨ pyStrip s = []) := by
      rintro ((hn | hn | hn) | hn)
      · exact hnan hn
      · exact hnone hn
      · rw [hn] at hemp
        exact absurd hemp (by decide)
      · rw [(pyStrip_empty_iff s).mp hn] at hws
        exact Bool.noConfusion hws
    rw [clean_supplier_code, if_neg hcond]
    by_cases h2 : endsWithD (pyStrip s) ['.', '0'] = true
    · rw [if_pos h2]
      refine Or.inr (Or.inl ?_)
      have hd := endsWith_decomp h2
      simpa using hd
    · rw [if_neg h2]
      by_cases h3 : endsWithD (pyStrip s) ['.', '0', '0'] = true
      · rw [if_pos h3]
        refine Or.inr (Or.inr ?_)
        have hd := endsWith_decomp h3
        simpa using hd
      · rw [if_neg h3]
        exact Or.inl rfl

theorem c10_clean_code_total_witness :
    clean_supplier_code (some (("NaN").data)) = [] ∧
      (clean_supplier_code (some (("A.0").data)) = pyStrip (("A.0").data) ∨
        clean_supplier_code (some (("A.0").data)) ++ ['.', '0'] = pyStrip (("A.0").data) ∨
        clean_supplier_code (some (("A.0").data)) ++ ['.', '0', '0'] = pyStrip (("A.0").data)) :=
  ⟨(c10_clean_code_total (some (("NaN").data))).1 (by decide),
    (c10_clean_code_total (some (("A.0").data))).2 (("A.0").data) rfl (by decide)⟩

/-- C7 counterexample: a loaded frame with a supplier-code column whose
record has code `"123"` but a missing supplier name displays as the empty
string — a display that contains no trace of the code, refuting "the display
identifier is the concatenation of the zero-padded code and the trimmed
name" for every loaded record. -/
theorem c7_counterexample :
    (loadedCols (load_csv [colClose, colName, colCode]
        [[Cell.num 1, Cell.null, Cell.str (("123").data)]])).contains colCode = true ∧
      lookupCell (load_csv [colClose, colName, colCode]
        [[Cell.num 1, Cell.null, Cell.str (("123").data)]]) 0 colCode
        = some (.str (("123").data)) ∧
      lookupCell (load_csv [colClose, colName, colCode]
        [[Cell.num 1, Cell.null, Cell.str (("123").data)]]) 0 colDisp
        = some (.str []) ∧
      containsSub (("123").data) [] = false := by
  exact ⟨by decide, by decide, by decide, by decide⟩

theorem c7_supplier_display_witness :
    ((loadedRows (load_csv [colClose, colName, colCode]
        [[Cell.num 1, Cell.str ((" Acme ").data), Cell.str (("77").data)]])).getD 0 []).lookup
      colDisp = some (.str (("77_Acme").data)) := by
  have h := (c7_supplier_display [colClose, colName, colCode]
      [[Cell.num 1, Cell.str ((" Acme ").data), Cell.str (("77").data)]]
      ((loadedRows (load_csv [colClose, colName, colCode]
        [[Cell.num 1, Cell.str ((" Acme ").data), Cell.str (("77").data)]])).getD 0 [])
      (by decide)).1
    (by decide) (("77").data) (("Acme").data)
    (by decide) (by decide)
  exact h.trans (by decide)

end App

